import Mathlib

/-!
Formal model of `src/pdhg_solver.py`, a vanilla PDHG (Chambolle-Pock) solver
for linear programs in canonical form (minimize cᵀx subject to Ax = b and
lb ≤ x ≤ ub).

Modelling choices:
* vectors are functions `Fin n → ℝ`; the floating-point arithmetic of the
  source is modelled by real arithmetic;
* the constraint matrix built from COO triplets becomes a
  `Matrix (Fin m) (Fin n) ℝ` (duplicate triplets sum, as in `scipy`);
* the random start vector of the power iteration (`np.random.randn(n)`) is an
  explicit parameter `v0`;
* `np.linalg.norm` is the Euclidean norm `norm2`;
* the loop with `break`/`else` becomes a fuel-indexed recursion producing the
  final `x` together with an `Outcome` that records how the loop ended.
-/

noncomputable section

open Matrix

/-- Euclidean norm, modelling `np.linalg.norm` (default 2-norm). -/
def norm2 {n : ℕ} (v : Fin n → ℝ) : ℝ := Real.sqrt (∑ i, v i ^ 2)

/-- Failure of the sparse-operator construction (the design's `ShapeError`,
surfaced in the source as the `ValueError` scipy raises from
`sp.coo_matrix`). -/
inductive SolveError where
  | shapeError

/-- Modelled from the spec: `sp.coo_matrix((data, (row, col)), shape)` on line
55 is external library code, so its validation is taken from spec §4.1:
construction fails with a ShapeError if any row/col index falls outside the
declared bounds or the three triplet arrays differ in length; otherwise the
matrix entry is the sum of the matching triplet values (duplicates sum). -/
def buildMatrix (m n : ℕ) (row col : List ℕ) (val : List ℝ) :
    Except SolveError (Matrix (Fin m) (Fin n) ℝ) :=
  if row.length = col.length ∧ col.length = val.length ∧
      (∀ r ∈ row, r < m) ∧ (∀ j ∈ col, j < n) then
    Except.ok (fun i j =>
      ∑ k ∈ Finset.range val.length,
        if row.getD k 0 = (i : ℕ) ∧ col.getD k 0 = (j : ℕ) then val.getD k 0 else 0)
  else
    Except.error SolveError.shapeError

/-- One matrix product of the power iteration, line 67:
`x_rand = AT.dot(A.dot(x_rand))`. -/
def powerStep {m n : ℕ} (A : Matrix (Fin m) (Fin n) ℝ) (v : Fin n → ℝ) :
    Fin n → ℝ :=
  Aᵀ.mulVec (A.mulVec v)

/-- The power-iteration loop of lines 66-70, carrying `(x_rand, norm_x)`:
each round forms the product, records its norm, and divides by the norm only
when it is positive. -/
def powerLoop {m n : ℕ} (A : Matrix (Fin m) (Fin n) ℝ) :
    ℕ → (Fin n → ℝ) × ℝ → (Fin n → ℝ) × ℝ
  | 0, s => s
  | k + 1, (v, _) =>
    powerLoop A k
      (if norm2 (powerStep A v) > 0 then
        fun i => powerStep A v i / norm2 (powerStep A v)
      else powerStep A v,
      norm2 (powerStep A v))

/-- Lines 64-71: ten rounds of power iteration starting from `v0`, then
`L = np.sqrt(norm_x)` where `norm_x` is the pre-normalization norm recorded in
the final round. -/
def normEstimate {m n : ℕ} (A : Matrix (Fin m) (Fin n) ℝ) (v0 : Fin n → ℝ) :
    ℝ :=
  Real.sqrt (powerLoop A 10 (v0, 0)).2

/-- Line 73: `sigma = 1.0 / L`. -/
def sigmaOf (L : ℝ) : ℝ := 1 / L

/-- Line 74: `tau = 1.0 / L`. -/
def tauOf (L : ℝ) : ℝ := 1 / L

/-- The iteration state owned by the engine: primal `x`, extrapolated `xbar`,
dual `y`. -/
structure PdhgState (m n : ℕ) where
  x : Fin n → ℝ
  xbar : Fin n → ℝ
  y : Fin m → ℝ

/-- Lines 77-79: `x = np.zeros(n)`, `x_bar = x.copy()`, `y = np.zeros(m)`. -/
def initState (m n : ℕ) : PdhgState m n :=
  ⟨fun _ => 0, fun _ => 0, fun _ => 0⟩

/-- Componentwise box clamp, line 90: `np.minimum(np.maximum(x, lb), ub)`. -/
def clampVec {n : ℕ} (v lb ub : Fin n → ℝ) : Fin n → ℝ :=
  fun i => min (max (v i) (lb i)) (ub i)

/-- One loop body, lines 83-93: dual ascent using the extrapolated point,
primal gradient step using the just-updated dual, box clamp, extrapolation
against the pre-update `x_old`. -/
def pdhgStep {m n : ℕ} (A : Matrix (Fin m) (Fin n) ℝ) (b : Fin m → ℝ)
    (c lb ub : Fin n → ℝ) (sigma tau theta : ℝ) (s : PdhgState m n) :
    PdhgState m n :=
  let y1 := fun i => s.y i + sigma * (A.mulVec s.xbar i - b i)
  let xold := s.x
  let grad := fun i => Aᵀ.mulVec y1 i + c i
  let x1 := fun i => s.x i - tau * grad i
  let x2 := clampVec x1 lb ub
  ⟨x2, fun i => x2 i + theta * (x2 i - xold i), y1⟩

/-- How the loop of lines 81-100 ended: the `break` after the convergence test
(with its 1-indexed iteration count `k+1`), or the `for`-`else` branch after
`max_iter` iterations. -/
inductive Outcome where
  | converged (iters : ℕ)
  | maxIterReached

/-- Lines 81-102: run the update of lines 83-93, test
`norm(x - x_old) <= tol * max(1, norm(x_old))`, break on success, otherwise
continue; when the fuel (`max_iter`) runs out, report `maxIterReached`.
Both endings return the current `x`. -/
def pdhgLoop {m n : ℕ} (A : Matrix (Fin m) (Fin n) ℝ) (b : Fin m → ℝ)
    (c lb ub : Fin n → ℝ) (sigma tau theta tol : ℝ) :
    ℕ → ℕ → PdhgState m n → (Fin n → ℝ) × Outcome
  | 0, _, s => (s.x, Outcome.maxIterReached)
  | fuel + 1, k, s =>
    if norm2 (fun i => (pdhgStep A b c lb ub sigma tau theta s).x i - s.x i) ≤
        tol * max 1 (norm2 s.x) then
      ((pdhgStep A b c lb ub sigma tau theta s).x, Outcome.converged (k + 1))
    else
      pdhgLoop A b c lb ub sigma tau theta tol fuel (k + 1)
        (pdhgStep A b c lb ub sigma tau theta s)

/-- `pdhg_solve`, lines 37-102: build the operator from the triplets, estimate
the operator norm from the start vector `v0`, derive the step sizes, and run
the loop from the zero state. -/
def pdhg_solve (m n : ℕ) (row col : List ℕ) (val : List ℝ) (b : Fin m → ℝ)
    (c lb ub : Fin n → ℝ) (v0 : Fin n → ℝ) (max_iter : ℕ) (tol theta : ℝ) :
    Except SolveError ((Fin n → ℝ) × Outcome) :=
  match buildMatrix m n row col val with
  | Except.error e => Except.error e
  | Except.ok A =>
    Except.ok (pdhgLoop A b c lb ub (sigmaOf (normEstimate A v0))
      (tauOf (normEstimate A v0)) theta tol max_iter 0 (initState m n))

/-- One round of the Norm Estimator as spec §4.2 words it: `v ← Aᵀ(Av)`,
normalized only when its norm is positive. -/
def powerRound {m n : ℕ} (A : Matrix (Fin m) (Fin n) ℝ) (v : Fin n → ℝ) :
    Fin n → ℝ :=
  if norm2 (powerStep A v) > 0 then
    fun i => powerStep A v i / norm2 (powerStep A v)
  else powerStep A v

/-- The Norm Estimator output as spec §4.2 words it: after the ten rounds,
`L` is the square root of the pre-normalization norm of the final product,
i.e. of the product applied to the ninth normalized iterate. -/
def normEstimateSpec {m n : ℕ} (A : Matrix (Fin m) (Fin n) ℝ)
    (v0 : Fin n → ℝ) : ℝ :=
  Real.sqrt (norm2 (powerStep A ((powerRound A)^[9] v0)))

/-- Spec §4.3 step 1: dual step `y ← y + σ·(A·x̄ − b)`. -/
def dualStep {m n : ℕ} (A : Matrix (Fin m) (Fin n) ℝ) (b : Fin m → ℝ)
    (sigma : ℝ) (xbar : Fin n → ℝ) (y : Fin m → ℝ) : Fin m → ℝ :=
  fun i => y i + sigma * (A.mulVec xbar i - b i)

/-- Spec §4.3 step 2: primal gradient step `x ← x − τ·(Aᵀy + c)`. -/
def primalStep {m n : ℕ} (A : Matrix (Fin m) (Fin n) ℝ) (c : Fin n → ℝ)
    (tau : ℝ) (x : Fin n → ℝ) (y : Fin m → ℝ) : Fin n → ℝ :=
  fun i => x i - tau * (Aᵀ.mulVec y i + c i)

/-- Spec §4.3 step 4: extrapolation `x̄ ← x + θ·(x − x_old)`. -/
def extrapolate {n : ℕ} (theta : ℝ) (x xold : Fin n → ℝ) : Fin n → ℝ :=
  fun i => x i + theta * (x i - xold i)

/-- The `j`-th iterate of the loop body started at `s`. -/
def iterState {m n : ℕ} (A : Matrix (Fin m) (Fin n) ℝ) (b : Fin m → ℝ)
    (c lb ub : Fin n → ℝ) (sigma tau theta : ℝ) (j : ℕ) (s : PdhgState m n) :
    PdhgState m n :=
  (pdhgStep A b c lb ub sigma tau theta)^[j] s

/-- The stopping test of line 96 as seen at iterate `j` (0-indexed) of the run
started at `s`: the `x` produced by iteration `j` against the `x_old` it
started from. -/
def convTest {m n : ℕ} (A : Matrix (Fin m) (Fin n) ℝ) (b : Fin m → ℝ)
    (c lb ub : Fin n → ℝ) (sigma tau theta tol : ℝ) (s : PdhgState m n)
    (j : ℕ) : Prop :=
  norm2 (fun i => (iterState A b c lb ub sigma tau theta (j + 1) s).x i -
      (iterState A b c lb ub sigma tau theta j s).x i) ≤
    tol * max 1 (norm2 (iterState A b c lb ub sigma tau theta j s).x)

end

open Matrix

/-! ## Helper lemmas -/

theorem norm2_zero {n : ℕ} : norm2 (0 : Fin n → ℝ) = 0 := by
  simp [norm2]

theorem powerStep_zeroA {m n : ℕ} (v : Fin n → ℝ) :
    powerStep (0 : Matrix (Fin m) (Fin n) ℝ) v = 0 := by
  simp [powerStep]

theorem powerLoop_succ {m n : ℕ} (A : Matrix (Fin m) (Fin n) ℝ) :
    ∀ (k : ℕ) (v : Fin n → ℝ) (a : ℝ),
      powerLoop A (k + 1) (v, a) =
        ((powerRound A)^[k + 1] v, norm2 (powerStep A ((powerRound A)^[k] v))) := by
  intro k
  induction k with
  | zero => intro v a; rfl
  | succ k ih =>
    intro v a
    have h1 : powerLoop A (k + 1 + 1) (v, a) =
        powerLoop A (k + 1) (powerRound A v, norm2 (powerStep A v)) := rfl
    rw [h1, ih]
    simp only [Function.iterate_succ_apply]

theorem normEstimate_eq_spec {m n : ℕ} (A : Matrix (Fin m) (Fin n) ℝ)
    (v0 : Fin n → ℝ) : normEstimate A v0 = normEstimateSpec A v0 := by
  unfold normEstimate normEstimateSpec
  rw [powerLoop_succ A 9 v0 0]

theorem normEstimate_zeroA {m n : ℕ} (v0 : Fin n → ℝ) :
    normEstimate (0 : Matrix (Fin m) (Fin n) ℝ) v0 = 0 := by
  rw [normEstimate_eq_spec]
  unfold normEstimateSpec
  rw [powerStep_zeroA, norm2_zero, Real.sqrt_zero]

theorem buildMatrix_nil :
    buildMatrix 1 1 [] [] [] = Except.ok (0 : Matrix (Fin 1) (Fin 1) ℝ) := by
  unfold buildMatrix
  rw [if_pos]
  · congr 1
  · refine ⟨rfl, rfl, ?_, ?_⟩ <;> simp

theorem pdhg_solve_ok (m n : ℕ) (row col : List ℕ) (val : List ℝ)
    (b : Fin m → ℝ) (c lb ub v0 : Fin n → ℝ) (max_iter : ℕ) (tol theta : ℝ)
    (A : Matrix (Fin m) (Fin n) ℝ)
    (hA : buildMatrix m n row col val = Except.ok A) :
    pdhg_solve m n row col val b c lb ub v0 max_iter tol theta =
      Except.ok (pdhgLoop A b c lb ub (sigmaOf (normEstimate A v0))
        (tauOf (normEstimate A v0)) theta tol max_iter 0 (initState m n)) := by
  unfold pdhg_solve
  rw [hA]

theorem pdhgLoop_zero {m n : ℕ} (A : Matrix (Fin m) (Fin n) ℝ) (b : Fin m → ℝ)
    (c lb ub : Fin n → ℝ) (sigma tau theta tol : ℝ) (k : ℕ) (s : PdhgState m n) :
    pdhgLoop A b c lb ub sigma tau theta tol 0 k s =
      (s.x, Outcome.maxIterReached) :=
  rfl

theorem pdhgLoop_succ {m n : ℕ} (A : Matrix (Fin m) (Fin n) ℝ) (b : Fin m → ℝ)
    (c lb ub : Fin n → ℝ) (sigma tau theta tol : ℝ) (fuel k : ℕ)
    (s : PdhgState m n) :
    pdhgLoop A b c lb ub sigma tau theta tol (fuel + 1) k s =
      if norm2 (fun i => (pdhgStep A b c lb ub sigma tau theta s).x i - s.x i) ≤
          tol * max 1 (norm2 s.x) then
        ((pdhgStep A b c lb ub sigma tau theta s).x, Outcome.converged (k + 1))
      else
        pdhgLoop A b c lb ub sigma tau theta tol fuel (k + 1)
          (pdhgStep A b c lb ub sigma tau theta s) :=
  rfl

theorem convTest_zero_iff {m n : ℕ} (A : Matrix (Fin m) (Fin n) ℝ)
    (b : Fin m → ℝ) (c lb ub : Fin n → ℝ) (sigma tau theta tol : ℝ)
    (s : PdhgState m n) :
    convTest A b c lb ub sigma tau theta tol s 0 ↔
      norm2 (fun i => (pdhgStep A b c lb ub sigma tau theta s).x i - s.x i) ≤
        tol * max 1 (norm2 s.x) :=
  Iff.rfl

theorem convTest_succ {m n : ℕ} (A : Matrix (Fin m) (Fin n) ℝ) (b : Fin m → ℝ)
    (c lb ub : Fin n → ℝ) (sigma tau theta tol : ℝ) (s : PdhgState m n)
    (j : ℕ) :
    convTest A b c lb ub sigma tau theta tol s (j + 1) ↔
      convTest A b c lb ub sigma tau theta tol
        (pdhgStep A b c lb ub sigma tau theta s) j := by
  unfold convTest iterState
  simp only [Function.iterate_succ_apply]

theorem pdhgLoop_of_not_test {m n : ℕ} (A : Matrix (Fin m) (Fin n) ℝ)
    (b : Fin m → ℝ) (c lb ub : Fin n → ℝ) (sigma tau theta tol : ℝ) :
    ∀ (fuel k : ℕ) (s : PdhgState m n),
      (∀ j < fuel, ¬ convTest A b c lb ub sigma tau theta tol s j) →
      pdhgLoop A b c lb ub sigma tau theta tol fuel k s =
        ((iterState A b c lb ub sigma tau theta fuel s).x,
          Outcome.maxIterReached) := by
  intro fuel
  induction fuel with
  | zero => intro k s _; rfl
  | succ fuel ih =>
    intro k s h
    have h0 : ¬ convTest A b c lb ub sigma tau theta tol s 0 :=
      h 0 (Nat.succ_pos fuel)
    rw [convTest_zero_iff] at h0
    rw [pdhgLoop_succ, if_neg h0]
    rw [ih (k + 1) (pdhgStep A b c lb ub sigma tau theta s) (fun j hj hc =>
      h (j + 1) (by omega)
        ((convTest_succ A b c lb ub sigma tau theta tol s j).mpr hc))]
    simp only [iterState, Function.iterate_succ_apply]

theorem pdhgLoop_of_first_test {m n : ℕ} (A : Matrix (Fin m) (Fin n) ℝ)
    (b : Fin m → ℝ) (c lb ub : Fin n → ℝ) (sigma tau theta tol : ℝ) :
    ∀ (j0 fuel k : ℕ) (s : PdhgState m n),
      j0 < fuel →
      convTest A b c lb ub sigma tau theta tol s j0 →
      (∀ j < j0, ¬ convTest A b c lb ub sigma tau theta tol s j) →
      pdhgLoop A b c lb ub sigma tau theta tol fuel k s =
        ((iterState A b c lb ub sigma tau theta (j0 + 1) s).x,
          Outcome.converged (k + j0 + 1)) := by
  intro j0
  induction j0 with
  | zero =>
    intro fuel k s hlt ht _
    obtain ⟨f, rfl⟩ : ∃ f, fuel = f + 1 := ⟨fuel - 1, by omega⟩
    rw [convTest_zero_iff] at ht
    rw [pdhgLoop_succ, if_pos ht]
    rfl
  | succ j0 ih =>
    intro fuel k s hlt ht hmin
    obtain ⟨f, rfl⟩ : ∃ f, fuel = f + 1 := ⟨fuel - 1, by omega⟩
    have h0 : ¬ convTest A b c lb ub sigma tau theta tol s 0 :=
      hmin 0 (Nat.succ_pos j0)
    rw [convTest_zero_iff] at h0
    rw [pdhgLoop_succ, if_neg h0]
    rw [ih f (k + 1) (pdhgStep A b c lb ub sigma tau theta s) (by omega)
      ((convTest_succ A b c lb ub sigma tau theta tol s j0).mp ht)
      (fun j hj hc => hmin (j + 1) (by omega)
        ((convTest_succ A b c lb ub sigma tau theta tol s j).mpr hc))]
    rw [(by omega : k + 1 + j0 + 1 = k + (j0 + 1) + 1)]
    simp only [iterState, Function.iterate_succ_apply]

theorem clampVec_self {n : ℕ} (v lb : Fin n → ℝ) : clampVec v lb lb = lb := by
  funext i
  exact min_eq_right (le_max_right (v i) (lb i))

theorem pdhgStep_x_of_eq_bounds {m n : ℕ} (A : Matrix (Fin m) (Fin n) ℝ)
    (b : Fin m → ℝ) (c lb : Fin n → ℝ) (sigma tau theta : ℝ)
    (s : PdhgState m n) :
    (pdhgStep A b c lb lb sigma tau theta s).x = lb :=
  clampVec_self _ lb

theorem clampVec_mem {n : ℕ} (v lb ub : Fin n → ℝ) (i : Fin n)
    (h : lb i ≤ ub i) :
    lb i ≤ clampVec v lb ub i ∧ clampVec v lb ub i ≤ ub i :=
  ⟨le_min (le_max_right _ _) h, min_le_right _ _⟩

theorem pdhgLoop_x_clamped {m n : ℕ} (A : Matrix (Fin m) (Fin n) ℝ)
    (b : Fin m → ℝ) (c lb ub : Fin n → ℝ) (sigma tau theta tol : ℝ) :
    ∀ (fuel k : ℕ) (s : PdhgState m n) (v : Fin n → ℝ),
      s.x = clampVec v lb ub →
      ∃ w, (pdhgLoop A b c lb ub sigma tau theta tol fuel k s).1 =
        clampVec w lb ub := by
  intro fuel
  induction fuel with
  | zero => intro k s v hv; exact ⟨v, hv⟩
  | succ fuel ih =>
    intro k s v hv
    rw [pdhgLoop_succ]
    by_cases h : norm2 (fun i => (pdhgStep A b c lb ub sigma tau theta s).x i -
        s.x i) ≤ tol * max 1 (norm2 s.x)
    · rw [if_pos h]
      exact ⟨_, rfl⟩
    · rw [if_neg h]
      exact ih (k + 1) (pdhgStep A b c lb ub sigma tau theta s) _ rfl

/-! ## Claim theorems -/

/-- Claim C2: every iteration performs, in this exact order, the dual step
`y ← y + σ(Ax̄ − b)`, then the primal step `x ← x − τ(Aᵀy + c)` using the
just-updated `y` (with `x_old` the pre-update `x`), then the box clamp, then
the extrapolation `x̄ ← x + θ(x − x_old)`. -/
theorem pdhgStep_follows_spec_order {m n : ℕ} (A : Matrix (Fin m) (Fin n) ℝ)
    (b : Fin m → ℝ) (c lb ub : Fin n → ℝ) (sigma tau theta : ℝ)
    (s : PdhgState m n) :
    pdhgStep A b c lb ub sigma tau theta s =
      ⟨clampVec (primalStep A c tau s.x (dualStep A b sigma s.xbar s.y)) lb ub,
       extrapolate theta
         (clampVec (primalStep A c tau s.x (dualStep A b sigma s.xbar s.y)) lb ub)
         s.x,
       dualStep A b sigma s.xbar s.y⟩ :=
  rfl

/-- Claim C3: the Norm Estimator runs exactly ten rounds of `v ← Aᵀ(Av)` with
normalization only when the norm is positive, and returns the square root of
the pre-normalization norm of the final product; for the zero matrix it
returns 0. -/
theorem normEstimate_matches_spec :
    (∀ (m n : ℕ) (A : Matrix (Fin m) (Fin n) ℝ) (v0 : Fin n → ℝ),
      normEstimate A v0 = normEstimateSpec A v0) ∧
    (∀ (m n : ℕ) (v0 : Fin n → ℝ),
      normEstimate (0 : Matrix (Fin m) (Fin n) ℝ) v0 = 0) :=
  ⟨fun _ _ A v0 => normEstimate_eq_spec A v0, fun _ _ v0 => normEstimate_zeroA v0⟩

/-- Claim C7: the componentwise box clamp is idempotent: applying it twice
yields the same result as applying it once, for every `v`, `lb`, `ub`. -/
theorem clampVec_idempotent {n : ℕ} (v lb ub : Fin n → ℝ) :
    clampVec (clampVec v lb ub) lb ub = clampVec v lb ub := by
  funext i
  simp only [clampVec]
  rcases le_total (max (v i) (lb i)) (ub i) with h | h
  · rw [min_eq_left h, max_eq_left (le_max_right (v i) (lb i)), min_eq_left h]
  · rw [min_eq_right h]
    rcases le_total (lb i) (ub i) with h2 | h2
    · rw [max_eq_left h2, min_self]
    · rw [max_eq_right h2, min_eq_right h2]

/-- Claim C6: the step sizes are derived once per solve call as
`τ = σ = 1/L` from the estimated norm, are passed unchanged to the iteration
loop, and satisfy `τ·σ·L² = 1`, the boundary case of the PDHG requirement
`τ·σ·L² ≤ 1`. -/
theorem stepSizes_boundary :
    (∀ L : ℝ, L ≠ 0 →
      tauOf L = sigmaOf L ∧ sigmaOf L = 1 / L ∧ tauOf L * sigmaOf L * L ^ 2 = 1) ∧
    (∀ (m n : ℕ) (row col : List ℕ) (val : List ℝ) (b : Fin m → ℝ)
        (c lb ub v0 : Fin n → ℝ) (max_iter : ℕ) (tol theta : ℝ)
        (A : Matrix (Fin m) (Fin n) ℝ),
      buildMatrix m n row col val = Except.ok A →
      pdhg_solve m n row col val b c lb ub v0 max_iter tol theta =
        Except.ok (pdhgLoop A b c lb ub (sigmaOf (normEstimate A v0))
          (tauOf (normEstimate A v0)) theta tol max_iter 0 (initState m n))) := by
  constructor
  · intro L hL
    refine ⟨rfl, rfl, ?_⟩
    unfold tauOf sigmaOf
    field_simp
    ring
  · intro m n row col val b c lb ub v0 max_iter tol theta A hA
    unfold pdhg_solve
    rw [hA]

/-- Witness for C6 at `L = 2` and at the empty-triplet 1×1 problem. -/
theorem stepSizes_boundary_witness :
    (tauOf 2 = sigmaOf 2 ∧ sigmaOf 2 = 1 / 2 ∧ tauOf 2 * sigmaOf 2 * 2 ^ 2 = 1) ∧
    pdhg_solve 1 1 [] [] [] (fun _ => 0) (fun _ => 0) (fun _ => 0) (fun _ => 1)
        (fun _ => 1) 3 1 1 =
      Except.ok (pdhgLoop (0 : Matrix (Fin 1) (Fin 1) ℝ) (fun _ => 0)
        (fun _ => 0) (fun _ => 0) (fun _ => 1)
        (sigmaOf (normEstimate (0 : Matrix (Fin 1) (Fin 1) ℝ)
          (fun _ : Fin 1 => 1)))
        (tauOf (normEstimate (0 : Matrix (Fin 1) (Fin 1) ℝ)
          (fun _ : Fin 1 => 1))) 1 1 3 0 (initState 1 1)) :=
  ⟨stepSizes_boundary.1 2 (by norm_num),
   stepSizes_boundary.2 1 1 [] [] [] (fun _ => 0) (fun _ => 0) (fun _ => 0)
     (fun _ => 1) (fun _ => 1) 3 1 1 0 buildMatrix_nil⟩

/-- Claim C4: the engine stops at the first iteration `j0` (0-indexed) whose
post-update state passes the relative-change test, reporting the 1-indexed
count `j0 + 1` and returning the current `x`; when no iteration within
`max_iter` passes, it stops after exactly `max_iter` iterations with the
non-fatal max-iteration outcome, again returning the current `x`. -/
theorem pdhgLoop_stopping_rule {m n : ℕ} (A : Matrix (Fin m) (Fin n) ℝ)
    (b : Fin m → ℝ) (c lb ub : Fin n → ℝ) (sigma tau theta tol : ℝ)
    (max_iter : ℕ) :
    (∀ j0 : ℕ, j0 < max_iter →
      convTest A b c lb ub sigma tau theta tol (initState m n) j0 →
      (∀ j < j0, ¬ convTest A b c lb ub sigma tau theta tol (initState m n) j) →
      pdhgLoop A b c lb ub sigma tau theta tol max_iter 0 (initState m n) =
        ((iterState A b c lb ub sigma tau theta (j0 + 1) (initState m n)).x,
          Outcome.converged (j0 + 1))) ∧
    ((∀ j < max_iter,
        ¬ convTest A b c lb ub sigma tau theta tol (initState m n) j) →
      pdhgLoop A b c lb ub sigma tau theta tol max_iter 0 (initState m n) =
        ((iterState A b c lb ub sigma tau theta max_iter (initState m n)).x,
          Outcome.maxIterReached)) := by
  constructor
  · intro j0 hlt ht hmin
    have h := pdhgLoop_of_first_test A b c lb ub sigma tau theta tol j0
      max_iter 0 (initState m n) hlt ht hmin
    simpa using h
  · intro h
    exact pdhgLoop_of_not_test A b c lb ub sigma tau theta tol max_iter 0
      (initState m n) h

/-- Witness for C4: a 1×1 zero problem whose very first iteration passes the
test, so the loop reports `converged 1`. -/
theorem pdhgLoop_stopping_rule_witness :
    pdhgLoop (0 : Matrix (Fin 1) (Fin 1) ℝ) (fun _ => 0) (fun _ => 0)
        (fun _ => 0) (fun _ => 1) 1 1 1 1 3 0 (initState 1 1) =
      ((iterState (0 : Matrix (Fin 1) (Fin 1) ℝ) (fun _ => 0) (fun _ => 0)
          (fun _ => 0) (fun _ => 1) 1 1 1 1 (initState 1 1)).x,
        Outcome.converged 1) := by
  refine (pdhgLoop_stopping_rule (0 : Matrix (Fin 1) (Fin 1) ℝ) (fun _ => 0)
    (fun _ => 0) (fun _ => 0) (fun _ => 1) 1 1 1 1 3).1 0 (by norm_num) ?_ ?_
  · rw [convTest_zero_iff]
    norm_num [pdhgStep, clampVec, initState, norm2, Matrix.zero_mulVec,
      Matrix.transpose_zero]
  · intro j hj
    exact absurd hj (Nat.not_lt_zero j)

/-- Claim C5: when the bounds pin a single point per coordinate (`lb = ub`),
the engine converges to `x = lb` regardless of `A`, `b`, `c` (and of the step
sizes), within at most two iterations, for any nonnegative tolerance. -/
theorem fixedBox_converges {m n : ℕ} (A : Matrix (Fin m) (Fin n) ℝ)
    (b : Fin m → ℝ) (c lb ub : Fin n → ℝ) (sigma tau theta tol : ℝ)
    (max_iter : ℕ) (hub : ub = lb) (hmax : 2 ≤ max_iter) (htol : 0 ≤ tol) :
    (pdhgLoop A b c lb ub sigma tau theta tol max_iter 0 (initState m n)).1 =
      lb ∧
    ((pdhgLoop A b c lb ub sigma tau theta tol max_iter 0 (initState m n)).2 =
        Outcome.converged 1 ∨
      (pdhgLoop A b c lb ub sigma tau theta tol max_iter 0 (initState m n)).2 =
        Outcome.converged 2) := by
  subst hub
  obtain ⟨f, rfl⟩ : ∃ f, max_iter = f + 1 + 1 := ⟨max_iter - 2, by omega⟩
  rw [pdhgLoop_succ]
  by_cases h0 : norm2 (fun i =>
      (pdhgStep A b c ub ub sigma tau theta (initState m n)).x i -
        (initState m n).x i) ≤ tol * max 1 (norm2 (initState m n).x)
  · rw [if_pos h0]
    exact ⟨pdhgStep_x_of_eq_bounds A b c ub sigma tau theta (initState m n),
      Or.inl rfl⟩
  · rw [if_neg h0, pdhgLoop_succ]
    have hx1 : (pdhgStep A b c ub ub sigma tau theta (initState m n)).x = ub :=
      pdhgStep_x_of_eq_bounds A b c ub sigma tau theta (initState m n)
    have hx2 : (pdhgStep A b c ub ub sigma tau theta
        (pdhgStep A b c ub ub sigma tau theta (initState m n))).x = ub :=
      pdhgStep_x_of_eq_bounds A b c ub sigma tau theta _
    have hcond : norm2 (fun i =>
        (pdhgStep A b c ub ub sigma tau theta
          (pdhgStep A b c ub ub sigma tau theta (initState m n))).x i -
          (pdhgStep A b c ub ub sigma tau theta (initState m n)).x i) ≤
        tol * max 1 (norm2 (pdhgStep A b c ub ub sigma tau theta
          (initState m n)).x) := by
      rw [hx1, hx2]
      have hz : (fun i => ub i - ub i) = (0 : Fin n → ℝ) := by
        funext i; simp
      rw [hz, norm2_zero]
      exact mul_nonneg htol (le_trans zero_le_one (le_max_left _ _))
    rw [if_pos hcond]
    exact ⟨hx2, Or.inr rfl⟩

/-- Witness for C5: a 1×1 problem with `lb = ub = 1` and zero tolerance
converges to `x = 1` within two iterations. -/
theorem fixedBox_converges_witness :
    (pdhgLoop (0 : Matrix (Fin 1) (Fin 1) ℝ) (fun _ => 0) (fun _ => 0)
        (fun _ => 1) (fun _ => 1) 1 1 1 0 2 0 (initState 1 1)).1 =
      (fun _ => 1) ∧
    ((pdhgLoop (0 : Matrix (Fin 1) (Fin 1) ℝ) (fun _ => 0) (fun _ => 0)
        (fun _ => 1) (fun _ => 1) 1 1 1 0 2 0 (initState 1 1)).2 =
        Outcome.converged 1 ∨
      (pdhgLoop (0 : Matrix (Fin 1) (Fin 1) ℝ) (fun _ => 0) (fun _ => 0)
        (fun _ => 1) (fun _ => 1) 1 1 1 0 2 0 (initState 1 1)).2 =
        Outcome.converged 2) :=
  fixedBox_converges 0 (fun _ => 0) (fun _ => 0) (fun _ => 1) (fun _ => 1)
    1 1 1 0 2 rfl (by norm_num) le_rfl

/-- Claim C9: for any solve running at least one iteration, the returned `x`
is the output of the most recent box clamp, and hence lies within the bounds
at every coordinate where `lb[i] ≤ ub[i]`, in both terminal outcomes. -/
theorem pdhgLoop_result_in_box {m n : ℕ} (A : Matrix (Fin m) (Fin n) ℝ)
    (b : Fin m → ℝ) (c lb ub : Fin n → ℝ) (sigma tau theta tol : ℝ)
    (max_iter : ℕ) (hmax : 1 ≤ max_iter) :
    (∃ w, (pdhgLoop A b c lb ub sigma tau theta tol max_iter 0
        (initState m n)).1 = clampVec w lb ub) ∧
    (∀ i, lb i ≤ ub i →
      lb i ≤ (pdhgLoop A b c lb ub sigma tau theta tol max_iter 0
        (initState m n)).1 i ∧
      (pdhgLoop A b c lb ub sigma tau theta tol max_iter 0
        (initState m n)).1 i ≤ ub i) := by
  obtain ⟨f, rfl⟩ : ∃ f, max_iter = f + 1 := ⟨max_iter - 1, by omega⟩
  have hcl : ∃ w, (pdhgLoop A b c lb ub sigma tau theta tol (f + 1) 0
      (initState m n)).1 = clampVec w lb ub := by
    rw [pdhgLoop_succ]
    by_cases h : norm2 (fun i =>
        (pdhgStep A b c lb ub sigma tau theta (initState m n)).x i -
          (initState m n).x i) ≤ tol * max 1 (norm2 (initState m n).x)
    · rw [if_pos h]
      exact ⟨_, rfl⟩
    · rw [if_neg h]
      exact pdhgLoop_x_clamped A b c lb ub sigma tau theta tol f 1 _ _ rfl
  refine ⟨hcl, ?_⟩
  intro i hi
  obtain ⟨w, hw⟩ := hcl
  rw [hw]
  exact clampVec_mem w lb ub i hi

/-- Witness for C9: a 1×1 problem with bounds `[0, 1]` run for one iteration
returns an `x` inside the bounds. -/
theorem pdhgLoop_result_in_box_witness :
    (0 : ℝ) ≤ (pdhgLoop (0 : Matrix (Fin 1) (Fin 1) ℝ) (fun _ => 0)
        (fun _ => 0) (fun _ => 0) (fun _ => 1) 1 1 1 1 1 0 (initState 1 1)).1
        0 ∧
      (pdhgLoop (0 : Matrix (Fin 1) (Fin 1) ℝ) (fun _ => 0) (fun _ => 0)
        (fun _ => 0) (fun _ => 1) 1 1 1 1 1 0 (initState 1 1)).1 0 ≤ 1 :=
  (pdhgLoop_result_in_box 0 (fun _ => 0) (fun _ => 0) (fun _ => 0)
    (fun _ => 1) 1 1 1 1 1 (by norm_num)).2 0 (by norm_num)

/-- Claim C10: with `max_iter = 0` the loop body never runs: the solver
returns the all-zero initial `x` with the max-iteration outcome, for every
problem; such an `x` can violate the bounds, e.g. when `lb = 1`, `ub = 2`. -/
theorem maxIterZero_returns_zeroVec :
    (∀ (m n : ℕ) (A : Matrix (Fin m) (Fin n) ℝ) (b : Fin m → ℝ)
        (c lb ub : Fin n → ℝ) (sigma tau theta tol : ℝ),
      pdhgLoop A b c lb ub sigma tau theta tol 0 0 (initState m n) =
        ((fun _ => 0), Outcome.maxIterReached)) ∧
    (∀ (m n : ℕ) (row col : List ℕ) (val : List ℝ) (b : Fin m → ℝ)
        (c lb ub v0 : Fin n → ℝ) (tol theta : ℝ)
        (A : Matrix (Fin m) (Fin n) ℝ),
      buildMatrix m n row col val = Except.ok A →
      pdhg_solve m n row col val b c lb ub v0 0 tol theta =
        Except.ok ((fun _ => 0), Outcome.maxIterReached)) ∧
    (pdhgLoop (0 : Matrix (Fin 1) (Fin 1) ℝ) (fun _ => 0) (fun _ => 0)
        (fun _ => 1) (fun _ => 2) 1 1 1 1 0 0 (initState 1 1)).1 0 <
      (fun _ : Fin 1 => (1 : ℝ)) 0 := by
  refine ⟨fun m n A b c lb ub sigma tau theta tol => rfl, ?_, ?_⟩
  · intro m n row col val b c lb ub v0 tol theta A hA
    exact (pdhg_solve_ok m n row col val b c lb ub v0 0 tol theta A hA).trans
      rfl
  · exact zero_lt_one

/-- Witness for C10 at the empty-triplet 1×1 problem. -/
theorem maxIterZero_returns_zeroVec_witness :
    pdhg_solve 1 1 [] [] [] (fun _ => 0) (fun _ => 0) (fun _ => 0)
        (fun _ => 1) (fun _ => 1) 0 1 1 =
      Except.ok ((fun _ => 0), Outcome.maxIterReached) :=
  maxIterZero_returns_zeroVec.2.1 1 1 [] [] [] (fun _ => 0) (fun _ => 0)
    (fun _ => 0) (fun _ => 1) (fun _ => 1) 1 1 0 buildMatrix_nil

/-- Claim C8: building the sparse operator fails with a ShapeError whenever
the triplet arrays differ in length or some index is out of the declared
bounds, and that failure aborts the whole solve with no partial result. -/
theorem buildMatrix_shape_error_aborts :
    ∀ (m n : ℕ) (row col : List ℕ) (val : List ℝ) (b : Fin m → ℝ)
      (c lb ub v0 : Fin n → ℝ) (max_iter : ℕ) (tol theta : ℝ),
      ¬ (row.length = col.length ∧ col.length = val.length ∧
          (∀ r ∈ row, r < m) ∧ (∀ j ∈ col, j < n)) →
      buildMatrix m n row col val = Except.error SolveError.shapeError ∧
      pdhg_solve m n row col val b c lb ub v0 max_iter tol theta =
        Except.error SolveError.shapeError := by
  intro m n row col val b c lb ub v0 max_iter tol theta h
  have hb : buildMatrix m n row col val = Except.error SolveError.shapeError := by
    unfold buildMatrix
    rw [if_neg h]
  refine ⟨hb, ?_⟩
  unfold pdhg_solve
  rw [hb]

/-- Witness for C8: a 1×1 shape with a row index 1 out of bounds. -/
theorem buildMatrix_shape_error_aborts_witness :
    buildMatrix 1 1 [1] [0] [1] = Except.error SolveError.shapeError ∧
    pdhg_solve 1 1 [1] [0] [1] (fun _ => 0) (fun _ => 0) (fun _ => 0)
        (fun _ => 1) (fun _ => 1) 3 1 1 =
      Except.error SolveError.shapeError :=
  buildMatrix_shape_error_aborts 1 1 [1] [0] [1] (fun _ => 0) (fun _ => 0)
    (fun _ => 0) (fun _ => 1) (fun _ => 1) 3 1 1
    (fun h => absurd (h.2.2.1 1 (by simp)) (by norm_num))

/-- Claim C1 (recording the code's behavior): for the zero matrix the norm
estimate is 0, yet `pdhg_solve` derives the step sizes from it and runs the
engine to a normal result; no degenerate-norm guard exists in the code, whose
only failure mode is the shape check at construction. -/
theorem zeroMatrixNormUnguarded :
    normEstimate (0 : Matrix (Fin 1) (Fin 1) ℝ) (fun _ => 1) = 0 ∧
    pdhg_solve 1 1 [] [] [] (fun _ => 0) (fun _ => 0) (fun _ => 0)
        (fun _ => 1) (fun _ => 1) 5 (1 / 100) 1 =
      Except.ok ((fun _ => 0), Outcome.converged 1) := by
  refine ⟨normEstimate_zeroA _, ?_⟩
  rw [pdhg_solve_ok 1 1 [] [] [] (fun _ => 0) (fun _ => 0) (fun _ => 0)
    (fun _ => 1) (fun _ => 1) 5 (1 / 100) 1 0 buildMatrix_nil]
  congr 1
  rw [normEstimate_zeroA]
  have hs : sigmaOf 0 = 0 := by simp [sigmaOf]
  have ht : tauOf 0 = 0 := by simp [tauOf]
  rw [hs, ht]
  rw [(rfl : (5 : ℕ) = 4 + 1), pdhgLoop_succ]
  have hx : (pdhgStep (0 : Matrix (Fin 1) (Fin 1) ℝ) (fun _ => 0) (fun _ => 0)
      (fun _ => 0) (fun _ => 1) 0 0 1 (initState 1 1)).x =
      (fun _ : Fin 1 => (0 : ℝ)) := by
    funext i
    norm_num [pdhgStep, clampVec, initState]
  have hcond : norm2 (fun i =>
      (pdhgStep (0 : Matrix (Fin 1) (Fin 1) ℝ) (fun _ => 0) (fun _ => 0)
        (fun _ => 0) (fun _ => 1) 0 0 1 (initState 1 1)).x i -
        (initState 1 1).x i) ≤ (1 / 100) * max 1 (norm2 (initState 1 1).x) := by
    rw [hx]
    have hz : (fun i : Fin 1 => (0 : ℝ) - (initState 1 1).x i) =
        (0 : Fin 1 → ℝ) := by
      funext i
      simp [initState]
    rw [hz, norm2_zero]
    have : norm2 (initState 1 1).x = 0 := norm2_zero
    rw [this]
    norm_num
  rw [if_pos hcond, hx]
